import Mathlib

/-!
Verification of the command/response multiplexing engine of qapi-rs
(src/tokio/src/lib.rs): the pending-request table, the reply demultiplexer
(QapiEvents::process_response / process_message / spin), the command issuer
(QapiStream::execute / execute_oob / execute_), and the two handshake
negotiators (negotiate_caps and guest_sync).

Conventions of the shallow embedding:
- machine integers (u64 ids, the usize id counter) are Nat; wraparound of the
  AtomicUsize counter is made explicit with a reduction modulo 2 to the 64;
- fallible Rust paths return an explicit result type, with a dedicated
  constructor for a Rust panic (the unimplemented macro panics at runtime);
- the external collaborators (line codec, serde, oneshot channels, locks) are
  modelled by their observable behaviour at the call sites in lib.rs; data
  shapes that live in the sibling qapi-spec crate are modelled from the spec.
-/

namespace QapiTokio

/-- Kinds of io::Error used by src/tokio/src/lib.rs, plus the kind standing for
an io error obtained by converting a structured QAPI error (the From conversion
applied in guest_sync, line 270). -/
inductive ErrKind where
  | invalidData
  | unexpectedEof
  | fromQapi
  deriving DecidableEq, Repr

/-- Result of running a fallible Rust code path: an ordinary value, a returned
io::Error (kind and message), or a Rust panic. -/
inductive RunResult (α : Type) where
  | ok (a : α)
  | err (kind : ErrKind) (msg : String)
  | panics (msg : String)
  deriving DecidableEq, Repr

/-- Modelled from the spec: the structured protocol error carried by a reply
(qapi_spec::Error, "kind + human-readable detail"). -/
structure QapiError where
  classCode : Nat
  desc : String
  deriving DecidableEq, Repr

/-- Modelled from the spec: an opaque decoded success payload (qapi_spec::Any);
the engine only stores, forwards and compares payloads, so an integer carrier
suffices for every claim. -/
abbrev Payload := Int

/-- Modelled from the spec: the optional id field of a decoded reply is an
arbitrary JSON value; res.id().and_then(as_u64) in process_response (line 96)
resolves it to a number only when it is numeric. -/
inductive IdVal where
  | num (n : Nat)
  | nonNum
  deriving DecidableEq, Repr

/-- The as_u64 resolution applied to a reply id value (line 96). -/
def IdVal.asU64 : IdVal → Option Nat
  | .num n => some n
  | .nonNum => none

instance instDecEqExcept {ε α : Type} [DecidableEq ε] [DecidableEq α] :
    DecidableEq (Except ε α)
  | .error e, .error f =>
    if h : e = f then .isTrue (by rw [h])
    else .isFalse fun hc => h (Except.error.inj hc)
  | .error _, .ok _ => .isFalse fun hc => Except.noConfusion hc
  | .ok _, .error _ => .isFalse fun hc => Except.noConfusion hc
  | .ok a, .ok b =>
    if h : a = b then .isTrue (by rw [h])
    else .isFalse fun hc => h (Except.ok.inj hc)

/-- Modelled from the spec: a Reply is "a decoded message carrying an optional
id and a result that is either a success payload or a structured error"
(qapi_spec::Response, with accessors id() and result()). -/
structure Response where
  id? : Option IdVal
  result : Except QapiError Payload
  deriving DecidableEq, Repr

/-- State of a oneshot::Sender completion handle sitting in the pending table:
the receiver is still awaited, or was dropped (the caller gave up or the
connection is being torn down), in which case send fails. -/
inductive Handle where
  | alive
  | abandoned
  deriving DecidableEq, Repr

/-- The Pending Table (QapiCommandMap, line 37): a BTreeMap from u64 command id
to a completion handle, modelled as an association list with unique keys. -/
abbrev PendingTable := List (Nat × Handle)

/-- BTreeMap::remove at a key: the removed handle, if any, and the rest. -/
def ptRemove (id : Nat) : PendingTable → Option Handle × PendingTable
  | [] => (none, [])
  | (k, h) :: t =>
    if k = id then (some h, t)
    else ((ptRemove id t).1, (k, h) :: (ptRemove id t).2)

/-- Key-membership test of the pending table. -/
def ptContains (id : Nat) (t : PendingTable) : Bool :=
  t.any (fun e => e.1 == id)

/-- Tail of QapiEvents::process_response (lines 102-110) once the id has been
resolved: lock the table, remove the entry for the id, and send the reply
result over the removed handle. An absent entry is the InvalidData io error
"unknown QAPI response"; sending on an abandoned handle hits the map_err
closure at line 106, which runs the unimplemented macro, i.e. panics. On
success the call returns the id, and the model also exposes the updated table
and the value handed to the receiver. -/
def processResolved (id : Nat) (pending : PendingTable) (res : Response) :
    RunResult (Nat × PendingTable × Except QapiError Payload) :=
  match ptRemove id pending with
  | (some .alive, pending') => .ok (id, pending', res.result)
  | (some .abandoned, _) => .panics "not implemented"
  | (none, _) => .err .invalidData "unknown QAPI response"

/-- Translation of QapiEvents::process_response (lines 95-111): the reply id is
resolved with id().and_then(as_u64) and matched together with supports_oob; a
numeric id without oob support and a missing numeric id with oob support are
InvalidData io errors; otherwise the resolved id (the numeric id, or the
reserved default 0) is looked up by processResolved. -/
def process_response (supports_oob : Bool) (pending : PendingTable)
    (res : Response) :
    RunResult (Nat × PendingTable × Except QapiError Payload) :=
  match res.id?.bind IdVal.asU64, supports_oob with
  | some id, true => processResolved id pending res
  | none, false => processResolved 0 pending res
  | none, true => .err .invalidData "QAPI expected response with numeric ID"
  | some _, false => .err .invalidData "QAPI expected response without ID"

/-- The id that process_response looks up in the pending table in its non-error
cases (lines 96-101): the numeric id when supports_oob is true, the reserved
default 0 when supports_oob is false and no numeric id is present. -/
def resolvedId (supports_oob : Bool) (res : Response) : Option Nat :=
  match res.id?.bind IdVal.asU64, supports_oob with
  | some id, true => some id
  | none, false => some 0
  | _, _ => none

/-- Translation of the pending-table insertion in execute_ (lines 328-334):
BTreeMap::insert returning Some(prev) means the id already had a live entry,
and that branch panics with "QAPI duplicate command id"; otherwise the new
handle is registered. -/
def insertPending (id : Nat) (pending : PendingTable) : RunResult PendingTable :=
  if ptContains id pending then
    .panics "QAPI duplicate command id, this should not happen"
  else
    .ok ((id, Handle.alive) :: pending)

/-- Observable plan of one execute_ call (lines 304-334), as decided by the
branch on self.supports_oob at line 305: which id is allocated, which
serializer shape is used (CommandSerializerRef::with_id versus
CommandSerializerRef::new), which oob flag is encoded, whether the write lock
is dropped before the reply is awaited (lines 323-326), and under which key the
completion handle is inserted (id.unwrap_or(Default::default()), line 331). -/
structure ExecPlan where
  idAssigned : Option Nat
  encodedWithId : Bool
  encodedOobFlag : Bool
  dropsWriteLockBeforeReply : Bool
  insertKey : Nat
  deriving DecidableEq, Repr

/-- The supports_oob branch of execute_ (lines 305-318) together with the
early-unlock branch (lines 323-326): with oob support a fresh id is allocated,
the command is serialized with that id and the caller's oob flag, and the lock
is dropped after the write; without oob support no id is allocated, the command
is serialized by CommandSerializerRef::new with the oob flag hardcoded to
false (line 316), the lock is kept, and the handle is inserted under id 0. -/
def executePlan (supports_oob : Bool) (oob : Bool) (freshId : Nat) : ExecPlan :=
  if supports_oob then
    { idAssigned := some freshId
      encodedWithId := true
      encodedOobFlag := oob
      dropsWriteLockBeforeReply := true
      insertKey := freshId }
  else
    { idAssigned := none
      encodedWithId := false
      encodedOobFlag := false
      dropsWriteLockBeforeReply := false
      insertKey := 0 }

/-- QapiStream::execute (lines 293-295): execute_ with oob set to false. -/
def executeCall (supports_oob : Bool) (freshId : Nat) : ExecPlan :=
  executePlan supports_oob false freshId

/-- QapiStream::execute_oob (lines 297-302): execute_ with oob set to true. -/
def executeOobCall (supports_oob : Bool) (freshId : Nat) : ExecPlan :=
  executePlan supports_oob true freshId

/-- Outcome observed by execute_ when awaiting the oneshot receiver
(lines 336-340). -/
inductive ReceiverOutcome where
  | delivered (r : Except QapiError Payload)
  | cancelled
  deriving DecidableEq, Repr

/-- Receiver await at the end of execute_ (lines 336-340): a delivered success
payload becomes the typed command result, a delivered structured error is
returned as the command outcome, and a cancelled receiver (the sender was
dropped without sending) is the UnexpectedEof io error
"QAPI stream disconnected". -/
def awaitReceiver : ReceiverOutcome → RunResult (Except QapiError Payload)
  | .delivered (.ok p) => .ok (.ok p)
  | .delivered (.error e) => .ok (.error e)
  | .cancelled => .err .unexpectedEof "QAPI stream disconnected"

/-- QapiStream::close (lines 343-346): the body is a single call to the
unimplemented macro, so invoking close panics and performs none of its
documented duties. -/
def close : RunResult Unit := .panics "not implemented"

/-- Decoding outcome of serde_json::from_str on one input line in the qapi-qga
configuration (line 118): the line either fails to parse or yields a Response.
The line codec and serde are external collaborators, so a line is represented
by its decoding outcome. -/
inductive QgaLine where
  | malformed
  | response (r : Response)
  deriving DecidableEq, Repr

/-- QapiEventsMessage in the qapi-qga configuration (lines 84-91): a processed
response (with its resolved id) or end of stream; no Event constructor exists
without the qapi-qmp feature. -/
inductive QgaMsg where
  | respMsg (id : Nat)
  | eofMsg
  deriving DecidableEq, Repr

/-- One present-line step of QapiEvents::process_message in the qapi-qga
configuration (lines 113-136): parse the line, then hand the response to
process_response. Returns the classification outcome, the updated pending
table, and the value delivered to a pending receiver, if any. A parse failure
and a process_response failure are io errors propagated to the caller; the
pending table is unchanged on every error path. -/
def processLineQga (supports_oob : Bool) (pending : PendingTable) :
    QgaLine → RunResult QgaMsg × PendingTable × Option (Except QapiError Payload)
  | .malformed => (.err .invalidData "serde_json parse error", pending, none)
  | .response r =>
    match process_response supports_oob pending r with
    | .ok (id, pending', delivered) => (.ok (.respMsg id), pending', some delivered)
    | .err k m => (.err k m, pending, none)
    | .panics m => (.panics m, pending, none)

/-- QapiEvents::next_event_ in the qapi-qga configuration (lines 155-162): one
process_message call per returned value — in this configuration every parsed
message is a response, so the loop body always breaks. End of input breaks with
none (lines 114, 119), a response breaks with some, an error propagates through
the question-mark operator. supports_oob is false on every qga connection
(line 254). Exactly one line is consumed unless the input is empty. -/
def nextEventQga (pending : PendingTable) :
    List QgaLine → RunResult (Option Unit) × PendingTable × List QgaLine
  | [] => (.ok none, pending, [])
  | l :: rest =>
    match processLineQga false pending l with
    | (.ok _, p', _) => (.ok (some ()), p', rest)
    | (.err k m, p', _) => (.err k m, p', rest)
    | (.panics m, p', _) => (.panics m, p', rest)

/-- QapiEvents::spin (lines 171-178): repeatedly run next_event_ and invert the
result; Ok(Some) and Err both yield Some and the while-let loop continues — an
error is merely logged ("spin ignoring error") — and only Ok(None), i.e. end of
stream, ends the loop. The model returns the per-iteration observations and the
final pending table; a panic inside process_response aborts spin itself. -/
def spinRun (pending : PendingTable) :
    List QgaLine → List (RunResult Unit) × PendingTable
  | [] => ([], pending)
  | l :: rest =>
    match processLineQga false pending l with
    | (.panics m, p', _) => ([.panics m], p')
    | (.ok _, p', _) =>
      ((.ok ()) :: (spinRun p' rest).1, (spinRun p' rest).2)
    | (.err k m, p', _) =>
      ((.err k m) :: (spinRun p' rest).1, (spinRun p' rest).2)

/-- QapiEventsMessage in the qapi-qmp configuration (lines 84-91), as consumed
by negotiate_caps: a processed response, an asynchronous event, or end of
stream. -/
inductive QmpMsg where
  | respMsg (id : Nat)
  | eventMsg
  | eofMsg
  deriving DecidableEq, Repr

/-- Events branch of QapiStream::negotiate_caps (lines 238-244): a Response is
accepted; Eof yields the UnexpectedEof io error "unexpected EOF when
negotiating QAPI capabilities"; an Event hits the unimplemented macro inside
the Err constructor (line 243), i.e. the branch panics instead of returning a
handshake error. -/
def negotiateCapsEvents : QmpMsg → RunResult Unit
  | .respMsg _ => .ok ()
  | .eofMsg => .err .unexpectedEof "unexpected EOF when negotiating QAPI capabilities"
  | .eventMsg => .panics "unexpected event"

/-- Sync branch of QapiStream::guest_sync (lines 266-275): the outcome of
executing the guest_sync command is compared with the token. An io failure from
execute hits a map_err closure that runs the unimplemented macro (line 269),
i.e. panics; a structured QAPI error is converted into an io error (line 270);
a success payload equal to the token succeeds, and any other payload is the
InvalidData io error "QMP sync failed" (lines 271-275). -/
def guestSyncSyncBranch (token : Int)
    (r : RunResult (Except QapiError Payload)) : RunResult Unit :=
  match r with
  | .panics m => .panics m
  | .err _ _ => .panics "negotiation error"
  | .ok (.error e) => .err .fromQapi e.desc
  | .ok (.ok v) => if v = token then .ok () else .err .invalidData "QMP sync failed"

/-- Events branch of QapiStream::guest_sync (lines 277-284) in the qapi-qga
configuration: a Response is accepted and Eof is the UnexpectedEof io error
"unexpected EOF when syncing QMP connection"; no Event case exists. -/
def guestSyncEvents : QgaMsg → RunResult Unit
  | .respMsg _ => .ok ()
  | .eofMsg => .err .unexpectedEof "unexpected EOF when syncing QMP connection"

/-- The try_join of the sync branch and the events branch (line 286): the sync
future is polled first, so a sync failure wins; both branches must succeed for
the handshake to succeed. -/
def tryJoinSync (syncRes eventsRes : RunResult Unit) : RunResult Unit :=
  match syncRes with
  | .ok () => eventsRes
  | other => other

/-- Wire input to the guest-agent handshake: what the single process_message
call of the events branch observes — end of stream, or the decoded sync reply
carried by the one line the server sends (qga replies carry no id, and
supports_oob is false on every qga connection, line 254). -/
inductive GsWire where
  | eofW
  | replyW (r : Except QapiError Payload)
  deriving DecidableEq, Repr

/-- Guest-agent synchronization (QapiStream::guest_sync, lines 265-287),
composed over one wire input. The command issuer has registered the handle for
the reserved id 0. On a reply line, process_response (lines 102-107) removes
that entry and delivers the reply result to the execute receiver; the events
branch then classifies Response, and the sync branch compares the delivered
payload with the token. On end of stream the events branch fails with
UnexpectedEof while the sync branch never resolves, and try_join surfaces the
events error. -/
def guest_sync (token : Int) (wire : GsWire) : RunResult Unit :=
  match wire with
  | .eofW => guestSyncEvents .eofMsg
  | .replyW r =>
    match process_response false [(0, Handle.alive)] { id? := none, result := r } with
    | .ok (id, _, delivered) =>
      tryJoinSync (guestSyncSyncBranch token (.ok delivered))
        (guestSyncEvents (.respMsg id))
    | .err k m => .err k m
    | .panics m => .panics m

/-! ### Interleaving model of execute_ against the reader task

The writer task inside execute_ and the reader task driving process_message
run concurrently (the reader is a separate spawned task; the writer suspends at
every await, and after line 325 it no longer holds the write lock). Each
constructor of WriterPc is a point of the writer separated from the next one by
an await or an unlock, i.e. a point at which the reader task can run. -/

/-- Program counter of a writer task inside execute_ with supports_oob true
(lines 304-341), for its first command (next_oob_id returns 0). -/
inductive WriterPc where
  | start
  | wLocked (id : Nat)
  | wWritten (id : Nat)
  | wUnlocked (id : Nat)
  | wRegistered (id : Nat)
  deriving DecidableEq, Repr

/-- Shared state of one oob command racing the reader task: the writer's
program counter, the write lock, the pending table, whether the peer has
already emitted the reply line for the written command, and the outcome of the
reader's process_response once it ran. -/
structure RaceState where
  wpc : WriterPc
  writeLockHeld : Bool
  pending : PendingTable
  replyOnWire : Bool
  readerResult : Option (RunResult Nat)
  deriving DecidableEq, Repr

/-- Scheduler actions of the race model. -/
inductive RaceAct where
  | wAlloc
  | wWrite
  | envReply
  | wDrop
  | wRegister
  | rProcess
  deriving DecidableEq, Repr

/-- Fresh connection, before the command is issued. -/
def raceInit : RaceState :=
  { wpc := .start, writeLockHeld := false, pending := [], replyOnWire := false,
    readerResult := none }

/-- One interleaving step. wAlloc is next_oob_id plus write_lock.lock() plus
serialization (lines 305-318); wWrite is the completion of write_all
(lines 320-321), after which the command is on the wire; envReply is the remote
peer emitting the reply line for the written command (possible at any moment
after the write); wDrop is the drop of the write guard in the oob branch
(lines 323-326); wRegister is pending.lock() plus the insertion
(lines 328-334); rProcess is the reader task running process_response on the
reply line (lines 95-111) — it needs only the pending-table lock, never the
write lock, so it is enabled whenever a reply line is present. -/
def raceStep (a : RaceAct) (s : RaceState) : Option RaceState :=
  match a with
  | .wAlloc =>
    match s.wpc with
    | .start =>
      if s.writeLockHeld then none
      else some { s with wpc := .wLocked 0, writeLockHeld := true }
    | _ => none
  | .wWrite =>
    match s.wpc with
    | .wLocked id => some { s with wpc := .wWritten id }
    | _ => none
  | .envReply =>
    match s.wpc with
    | .wWritten _ =>
      if s.replyOnWire then none else some { s with replyOnWire := true }
    | .wUnlocked _ =>
      if s.replyOnWire then none else some { s with replyOnWire := true }
    | .wRegistered _ =>
      if s.replyOnWire then none else some { s with replyOnWire := true }
    | _ => none
  | .wDrop =>
    match s.wpc with
    | .wWritten id => some { s with wpc := .wUnlocked id, writeLockHeld := false }
    | _ => none
  | .wRegister =>
    match s.wpc with
    | .wUnlocked id =>
      match insertPending id s.pending with
      | .ok p' => some { s with wpc := .wRegistered id, pending := p' }
      | _ => none
    | _ => none
  | .rProcess =>
    if s.replyOnWire && s.readerResult.isNone then
      match process_response true s.pending
          { id? := some (.num 0), result := .ok 0 } with
      | .ok (id, p', _) =>
        some { s with pending := p', readerResult := some (.ok id) }
      | .err k m => some { s with readerResult := some (.err k m) }
      | .panics m => some { s with readerResult := some (.panics m) }
    else none

/-- Run a schedule of the race model from the fresh connection. -/
def runRace (acts : List RaceAct) : Option RaceState :=
  acts.foldl (fun s? a => s?.bind (raceStep a)) (some raceInit)

/-! ### Serialized (non-oob) transition system

Phases of one writer caller executing the non-oob path of execute_: acquire
the write lock (line 315); serialize and write (lines 316-321; the guard is not
dropped because id.is_some() is false, lines 323-326); insert the handle under
the reserved id 0 (lines 328-334); await the receiver, which resolves only
after the reader removed the entry and sent the reply result (lines 102-107,
336); the write guard is dropped when the call returns. -/

/-- Phase of one non-oob writer caller. -/
inductive SPhase where
  | sIdle
  | sLocked
  | sWritten
  | sInserted
  | sResolved
  | sDone
  deriving DecidableEq, Repr

/-- A phase during which the caller holds the write guard. -/
def SPhase.busy : SPhase → Bool
  | .sIdle => false
  | .sDone => false
  | _ => true

/-- State of a non-oob connection with n concurrent writer callers. -/
structure SerialState (n : Nat) where
  lockOwner : Option (Fin n)
  table : PendingTable
  ph : Fin n → SPhase

/-- Fresh non-oob connection: lock free, empty table, all callers idle. -/
def serialInit (n : Nat) : SerialState n :=
  { lockOwner := none, table := [], ph := fun _ => .sIdle }

/-- Interleaving steps of n writer callers and the reader task on a non-oob
connection. -/
inductive SerialStep {n : Nat} : SerialState n → SerialState n → Prop where
  | acquire (i : Fin n) (s : SerialState n) :
      s.ph i = .sIdle → s.lockOwner = none →
      SerialStep s { s with lockOwner := some i,
                            ph := Function.update s.ph i .sLocked }
  | write (i : Fin n) (s : SerialState n) :
      s.ph i = .sLocked →
      SerialStep s { s with ph := Function.update s.ph i .sWritten }
  | insert (i : Fin n) (s : SerialState n) :
      s.ph i = .sWritten →
      SerialStep s { s with table := (0, Handle.alive) :: s.table,
                            ph := Function.update s.ph i .sInserted }
  | resolve (i : Fin n) (s : SerialState n) :
      s.ph i = .sInserted →
      SerialStep s { s with table := (ptRemove 0 s.table).2,
                            ph := Function.update s.ph i .sResolved }
  | finish (i : Fin n) (s : SerialState n) :
      s.ph i = .sResolved →
      SerialStep s { s with lockOwner := none,
                            ph := Function.update s.ph i .sDone }

/-- Reachable states of the non-oob connection. -/
inductive SerialReach {n : Nat} : SerialState n → Prop where
  | init : SerialReach (serialInit n)
  | step {s s' : SerialState n} :
      SerialReach s → SerialStep s s' → SerialReach s'

/-! ### Out-of-band id allocation system

Phases of one oob writer caller, reduced to the operations touching ids and
the pending table: allocate a fresh id with next_oob_id (lines 56-58, a
fetch_add on an AtomicUsize, which wraps modulo 2 to the 64), insert the handle
under that id (lines 328-334), and have the reader remove the entry
(line 103). -/

/-- Phase of one oob writer caller. -/
inductive OPhase where
  | oIdle
  | oAllocated (id : Nat)
  | oInserted (id : Nat)
  | oRemoved
  deriving DecidableEq, Repr

/-- The id a caller currently holds, if any. -/
def OPhase.holdsId : OPhase → Option Nat
  | .oAllocated id => some id
  | .oInserted id => some id
  | _ => none

/-- State of an oob connection with n concurrent writer callers: the number of
next_oob_id calls so far (the atomic register holds allocCount modulo 2 to the
64), the callers' phases, and the key set of the pending table. -/
structure OobState (n : Nat) where
  allocCount : Nat
  ph : Fin n → OPhase
  keys : List Nat

/-- Fresh oob connection: counter 0, all callers idle, empty table. -/
def oobInit (n : Nat) : OobState n :=
  { allocCount := 0, ph := fun _ => .oIdle, keys := [] }

/-- Interleaving steps of n oob writer callers and the reader task. -/
inductive OobStep {n : Nat} : OobState n → OobState n → Prop where
  | alloc (i : Fin n) (s : OobState n) :
      s.ph i = .oIdle →
      OobStep s { s with allocCount := s.allocCount + 1,
                         ph := Function.update s.ph i
                           (.oAllocated (s.allocCount % 2 ^ 64)) }
  | insert (i : Fin n) (s : OobState n) (id : Nat) :
      s.ph i = .oAllocated id →
      OobStep s { s with keys := id :: s.keys,
                         ph := Function.update s.ph i (.oInserted id) }
  | remove (i : Fin n) (s : OobState n) (id : Nat) :
      s.ph i = .oInserted id →
      OobStep s { s with keys := s.keys.erase id,
                         ph := Function.update s.ph i .oRemoved }

/-- Reachable states of the oob connection. -/
inductive OobReach {n : Nat} : OobState n → Prop where
  | init : OobReach (oobInit n)
  | step {s s' : OobState n} : OobReach s → OobStep s s' → OobReach s'

/-! ### Pending-table lemmas -/

theorem ptRemove_mem {id : Nat} {t : PendingTable} {e : Nat × Handle}
    (h : e ∈ (ptRemove id t).2) : e ∈ t := by
  induction t with
  | nil => simp [ptRemove] at h
  | cons a t ih =>
    obtain ⟨k, hd⟩ := a
    simp only [ptRemove] at h
    split at h
    · exact List.mem_cons_of_mem _ h
    · rcases List.mem_cons.1 h with h1 | h2
      · exact h1 ▸ List.mem_cons_self _ _
      · exact List.mem_cons_of_mem _ (ih h2)

theorem ptRemove_zero_of_small {t : PendingTable} (hlen : t.length ≤ 1)
    (hz : ∀ e ∈ t, e.1 = 0) : (ptRemove 0 t).2 = [] := by
  match t with
  | [] => rfl
  | (k, hd) :: t' =>
    have hk : k = 0 := hz (k, hd) (List.mem_cons_self _ _)
    have ht' : t' = [] := by
      cases t' with
      | nil => rfl
      | cons b t'' => simp at hlen
    subst hk ht'
    rfl

theorem ptRemove_of_not_contains {id : Nat} {t : PendingTable}
    (h : ptContains id t = false) : ptRemove id t = (none, t) := by
  induction t with
  | nil => rfl
  | cons a t ih =>
    obtain ⟨k, hd⟩ := a
    simp only [ptContains, List.any_cons, Bool.or_eq_false_iff] at h
    obtain ⟨h1, h2⟩ := h
    have hk : ¬ k = id := by simpa using h1
    have ih' := ih (by simpa [ptContains] using h2)
    simp only [ptRemove, if_neg hk, ih']

theorem ptContains_false_of_not_mem_keys {id : Nat} {t : PendingTable}
    (h : ∀ e ∈ t, e.1 ≠ id) : ptContains id t = false := by
  simp only [ptContains, List.any_eq_false]
  intro e he
  simpa using h e he

/-! ### Invariant of the serialized (non-oob) system -/

/-- Inductive invariant of the non-oob connection: every table entry is a live
handle under the reserved id 0; the table has at most one entry; every caller
that is anywhere between lock acquisition and receiver resolution is the lock
owner; and a nonempty table means some caller is in the inserted phase. -/
structure SerialInv {n : Nat} (s : SerialState n) : Prop where
  keysZero : ∀ e ∈ s.table, e.1 = 0 ∧ e.2 = Handle.alive
  atMostOne : s.table.length ≤ 1
  owner : ∀ i : Fin n, (s.ph i).busy = true → s.lockOwner = some i
  tblIns : s.table ≠ [] → ∃ i : Fin n, s.ph i = .sInserted

theorem serialInv_init (n : Nat) : SerialInv (serialInit n) := by
  refine ⟨?_, ?_, ?_, ?_⟩ <;> simp [serialInit, SPhase.busy]

theorem serialInv_step {n : Nat} {s s' : SerialState n}
    (inv : SerialInv s) (st : SerialStep s s') : SerialInv s' := by
  cases st with
  | acquire i s hph hlock =>
    have hnobusy : ∀ j : Fin n, ¬ (s.ph j).busy = true := by
      intro j hb
      have := inv.owner j hb
      rw [hlock] at this
      exact Option.noConfusion this
    have htbl : s.table = [] := by
      by_contra hne
      obtain ⟨j, hj⟩ := inv.tblIns hne
      exact hnobusy j (by rw [hj]; rfl)
    refine ⟨inv.keysZero, inv.atMostOne, ?_, ?_⟩
    · intro j hb
      by_cases hij : j = i
      · subst hij; rfl
      · dsimp only at hb
        rw [Function.update_noteq hij] at hb
        exact (hnobusy j hb).elim
    · intro hne
      exact (hne htbl).elim
  | write i s hph =>
    have hlock : s.lockOwner = some i := inv.owner i (by rw [hph]; rfl)
    refine ⟨inv.keysZero, inv.atMostOne, ?_, ?_⟩
    · intro j hb
      by_cases hij : j = i
      · subst hij; exact hlock
      · dsimp only at hb
        rw [Function.update_noteq hij] at hb
        exact inv.owner j hb
    · intro hne
      obtain ⟨j, hj⟩ := inv.tblIns hne
      have hij : j ≠ i := by
        intro h
        rw [h, hph] at hj
        exact SPhase.noConfusion hj
      exact ⟨j, by dsimp only; rw [Function.update_noteq hij]; exact hj⟩
  | insert i s hph =>
    have hlock : s.lockOwner = some i := inv.owner i (by rw [hph]; rfl)
    have htbl : s.table = [] := by
      by_contra hne
      obtain ⟨j, hj⟩ := inv.tblIns hne
      have hj2 : s.lockOwner = some j := inv.owner j (by rw [hj]; rfl)
      rw [hlock] at hj2
      have hij : i = j := Option.some.inj hj2
      rw [← hij, hph] at hj
      exact SPhase.noConfusion hj
    refine ⟨?_, ?_, ?_, ?_⟩
    · intro e he
      dsimp only at he
      rw [htbl] at he
      have : e = (0, Handle.alive) := by simpa using he
      rw [this]
      exact ⟨rfl, rfl⟩
    · dsimp only
      rw [htbl]
      simp
    · intro j hb
      by_cases hij : j = i
      · subst hij; exact hlock
      · dsimp only at hb
        rw [Function.update_noteq hij] at hb
        exact inv.owner j hb
    · intro _
      exact ⟨i, by dsimp only; rw [Function.update_same]⟩
  | resolve i s hph =>
    have htbl : (ptRemove 0 s.table).2 = [] :=
      ptRemove_zero_of_small inv.atMostOne (fun e he => (inv.keysZero e he).1)
    refine ⟨?_, ?_, ?_, ?_⟩
    · intro e he
      dsimp only at he
      rw [htbl] at he
      simp at he
    · dsimp only
      rw [htbl]
      simp
    · intro j hb
      by_cases hij : j = i
      · subst hij
        exact inv.owner j (by rw [hph]; rfl)
      · dsimp only at hb
        rw [Function.update_noteq hij] at hb
        exact inv.owner j hb
    · intro hne
      dsimp only at hne
      exact (hne htbl).elim
  | finish i s hph =>
    have hlock : s.lockOwner = some i := inv.owner i (by rw [hph]; rfl)
    have hnoins : ∀ j : Fin n, s.ph j ≠ .sInserted := by
      intro j hj
      have hj2 : s.lockOwner = some j := inv.owner j (by rw [hj]; rfl)
      rw [hlock] at hj2
      have hij : i = j := Option.some.inj hj2
      rw [← hij, hph] at hj
      exact SPhase.noConfusion hj
    have htbl : s.table = [] := by
      by_contra hne
      obtain ⟨j, hj⟩ := inv.tblIns hne
      exact hnoins j hj
    refine ⟨inv.keysZero, inv.atMostOne, ?_, ?_⟩
    · intro j hb
      by_cases hij : j = i
      · subst hij
        dsimp only at hb
        rw [Function.update_same] at hb
        exact Bool.noConfusion hb
      · dsimp only at hb
        rw [Function.update_noteq hij] at hb
        have h1 := inv.owner j hb
        rw [hlock] at h1
        exact (hij (Option.some.inj h1).symm).elim
    · intro hne
      exact (hne htbl).elim

theorem serialReach_inv {n : Nat} {s : SerialState n}
    (h : SerialReach s) : SerialInv s := by
  induction h with
  | init => exact serialInv_init n
  | step _ hs ih => exact serialInv_step ih hs

/-! ### Invariant of the out-of-band id allocation system

Every field is guarded by the hypothesis that fewer than 2 to the 64 ids have
been allocated on the connection, i.e. that the usize counter has not wrapped
around; below that bound next_oob_id is injective. -/

/-- Inductive invariant of the oob connection. -/
structure OobInv {n : Nat} (s : OobState n) : Prop where
  bound : s.allocCount ≤ 2 ^ 64 →
    ∀ i : Fin n, ∀ id, (s.ph i).holdsId = some id → id < s.allocCount
  inj : s.allocCount ≤ 2 ^ 64 →
    ∀ i j : Fin n, ∀ id, (s.ph i).holdsId = some id →
      (s.ph j).holdsId = some id → i = j
  keysIns : s.allocCount ≤ 2 ^ 64 →
    ∀ k ∈ s.keys, ∃ i : Fin n, s.ph i = .oInserted k
  allocFresh : s.allocCount ≤ 2 ^ 64 →
    ∀ i : Fin n, ∀ id, s.ph i = .oAllocated id → id ∉ s.keys
  nodupKeys : s.allocCount ≤ 2 ^ 64 → s.keys.Nodup

theorem oobInv_init (n : Nat) : OobInv (oobInit n) := by
  refine ⟨?_, ?_, ?_, ?_, ?_⟩ <;> simp [oobInit, OPhase.holdsId]

theorem oobInv_step {n : Nat} {s s' : OobState n}
    (inv : OobInv s) (st : OobStep s s') : OobInv s' := by
  cases st with
  | alloc i s hph =>
    refine ⟨?_, ?_, ?_, ?_, ?_⟩ <;> intro hb
    case _ =>
      have hb' : s.allocCount ≤ 2 ^ 64 := Nat.le_of_succ_le hb
      have hlt : s.allocCount < 2 ^ 64 := Nat.lt_of_succ_le hb
      have hmod : s.allocCount % 2 ^ 64 = s.allocCount := Nat.mod_eq_of_lt hlt
      intro j id hj
      by_cases hij : j = i
      · subst hij
        dsimp only at hj
        rw [Function.update_same] at hj
        simp only [OPhase.holdsId] at hj
        rw [hmod] at hj
        rw [← Option.some.inj hj]
        exact Nat.lt_succ_self _
      · dsimp only at hj
        rw [Function.update_noteq hij] at hj
        exact Nat.lt_succ_of_lt (inv.bound hb' j id hj)
    case _ =>
      have hb' : s.allocCount ≤ 2 ^ 64 := Nat.le_of_succ_le hb
      have hlt : s.allocCount < 2 ^ 64 := Nat.lt_of_succ_le hb
      have hmod : s.allocCount % 2 ^ 64 = s.allocCount := Nat.mod_eq_of_lt hlt
      intro j k id hj hk
      by_cases hji : j = i <;> by_cases hki : k = i
      · rw [hji, hki]
      · subst hji
        dsimp only at hj hk
        rw [Function.update_same] at hj
        rw [Function.update_noteq hki] at hk
        simp only [OPhase.holdsId] at hj
        rw [hmod] at hj
        have hbig := inv.bound hb' k id hk
        rw [← Option.some.inj hj] at hbig
        exact (Nat.lt_irrefl _ hbig).elim
      · subst hki
        dsimp only at hj hk
        rw [Function.update_same] at hk
        rw [Function.update_noteq hji] at hj
        simp only [OPhase.holdsId] at hk
        rw [hmod] at hk
        have hbig := inv.bound hb' j id hj
        rw [← Option.some.inj hk] at hbig
        exact (Nat.lt_irrefl _ hbig).elim
      · dsimp only at hj hk
        rw [Function.update_noteq hji] at hj
        rw [Function.update_noteq hki] at hk
        exact inv.inj hb' j k id hj hk
    case _ =>
      have hb' : s.allocCount ≤ 2 ^ 64 := Nat.le_of_succ_le hb
      intro k hk
      obtain ⟨j, hj⟩ := inv.keysIns hb' k hk
      have hji : j ≠ i := by
        intro h
        rw [h, hph] at hj
        exact OPhase.noConfusion hj
      exact ⟨j, by dsimp only; rw [Function.update_noteq hji]; exact hj⟩
    case _ =>
      have hb' : s.allocCount ≤ 2 ^ 64 := Nat.le_of_succ_le hb
      have hlt : s.allocCount < 2 ^ 64 := Nat.lt_of_succ_le hb
      have hmod : s.allocCount % 2 ^ 64 = s.allocCount := Nat.mod_eq_of_lt hlt
      intro j id hj hmem
      by_cases hji : j = i
      · subst hji
        dsimp only at hj
        rw [Function.update_same] at hj
        have hid : id = s.allocCount := by
          have := OPhase.oAllocated.inj hj
          rw [← this, hmod]
        obtain ⟨k, hk⟩ := inv.keysIns hb' id hmem
        have hbig := inv.bound hb' k id (by rw [hk]; rfl)
        rw [hid] at hbig
        exact (Nat.lt_irrefl _ hbig).elim
      · dsimp only at hj
        rw [Function.update_noteq hji] at hj
        exact inv.allocFresh hb' j id hj hmem
    case _ =>
      exact inv.nodupKeys (Nat.le_of_succ_le hb)
  | insert i s id hph =>
    have hsame : ∀ j : Fin n,
        (Function.update s.ph i (.oInserted id) j).holdsId = (s.ph j).holdsId := by
      intro j
      by_cases hji : j = i
      · subst hji
        rw [Function.update_same, hph]
        rfl
      · rw [Function.update_noteq hji]
    refine ⟨?_, ?_, ?_, ?_, ?_⟩ <;> intro hb
    case _ =>
      intro j jd hj
      dsimp only at hj
      rw [hsame j] at hj
      exact inv.bound hb j jd hj
    case _ =>
      intro j k jd hj hk
      dsimp only at hj hk
      rw [hsame j] at hj
      rw [hsame k] at hk
      exact inv.inj hb j k jd hj hk
    case _ =>
      intro k hk
      dsimp only at hk
      rcases List.mem_cons.1 hk with h1 | h2
      · subst h1
        exact ⟨i, by dsimp only; rw [Function.update_same]⟩
      · obtain ⟨j, hj⟩ := inv.keysIns hb k h2
        have hji : j ≠ i := by
          intro h
          rw [h, hph] at hj
          exact OPhase.noConfusion hj
        exact ⟨j, by dsimp only; rw [Function.update_noteq hji]; exact hj⟩
    case _ =>
      intro j jd hj hmem
      dsimp only at hj hmem
      have hji : j ≠ i := by
        intro h
        rw [h] at hj
        rw [Function.update_same] at hj
        exact OPhase.noConfusion hj
      rw [Function.update_noteq hji] at hj
      have hne : jd ≠ id := by
        intro h
        subst h
        exact hji (inv.inj hb j i jd (by rw [hj]; rfl) (by rw [hph]; rfl))
      rcases List.mem_cons.1 hmem with h1 | h2
      · exact hne h1
      · exact inv.allocFresh hb j jd hj h2
    case _ =>
      dsimp only
      exact List.nodup_cons.2 ⟨inv.allocFresh hb i id hph, inv.nodupKeys hb⟩
  | remove i s id hph =>
    have hout : ∀ j : Fin n, ∀ jd,
        (Function.update s.ph i OPhase.oRemoved j).holdsId = some jd →
          (s.ph j).holdsId = some jd := by
      intro j jd hj
      by_cases hji : j = i
      · subst hji
        rw [Function.update_same] at hj
        exact Option.noConfusion hj
      · rw [Function.update_noteq hji] at hj
        exact hj
    refine ⟨?_, ?_, ?_, ?_, ?_⟩ <;> intro hb
    case _ =>
      intro j jd hj
      exact inv.bound hb j jd (hout j jd hj)
    case _ =>
      intro j k jd hj hk
      exact inv.inj hb j k jd (hout j jd hj) (hout k jd hk)
    case _ =>
      intro k hk
      dsimp only at hk
      have hk' : k ≠ id ∧ k ∈ s.keys :=
        ((inv.nodupKeys hb).mem_erase_iff).1 hk
      obtain ⟨j, hj⟩ := inv.keysIns hb k hk'.2
      have hji : j ≠ i := by
        intro h
        rw [h, hph] at hj
        exact hk'.1 (OPhase.oInserted.inj hj).symm
      exact ⟨j, by dsimp only; rw [Function.update_noteq hji]; exact hj⟩
    case _ =>
      intro j jd hj hmem
      dsimp only at hj hmem
      have hji : j ≠ i := by
        intro h
        rw [h] at hj
        rw [Function.update_same] at hj
        exact OPhase.noConfusion hj
      rw [Function.update_noteq hji] at hj
      exact inv.allocFresh hb j jd hj (List.erase_subset _ _ hmem)
    case _ =>
      exact (inv.nodupKeys hb).erase id

theorem oobReach_inv {n : Nat} {s : OobState n}
    (h : OobReach s) : OobInv s := by
  induction h with
  | init => exact oobInv_init n
  | step _ hs ih => exact oobInv_step ih hs

/-! ### Auxiliary definitions for the claim theorems -/

/-- Pending table whose key set is the given id list, with all handles live. -/
def pendingOfKeys (ks : List Nat) : PendingTable :=
  ks.map fun k => (k, Handle.alive)

theorem ptContains_pendingOfKeys {k : Nat} {ks : List Nat} (h : k ∉ ks) :
    ptContains k (pendingOfKeys ks) = false := by
  apply ptContains_false_of_not_mem_keys
  intro e he hek
  apply h
  simp only [pendingOfKeys, List.mem_map] at he
  obtain ⟨a, ha, rfl⟩ := he
  simpa [← hek] using ha

/-- Concrete run of the serialized system: caller 0 of 2 acquires the lock. -/
def serialDemo1 : SerialState 2 :=
  { serialInit 2 with
      lockOwner := some 0
      ph := Function.update (serialInit 2).ph 0 .sLocked }

/-- Caller 0 has completed its write, still holding the lock. -/
def serialDemo2 : SerialState 2 :=
  { serialDemo1 with ph := Function.update serialDemo1.ph 0 .sWritten }

/-- Caller 0 has inserted its handle under the reserved id 0. -/
def serialDemo3 : SerialState 2 :=
  { serialDemo2 with
      table := (0, Handle.alive) :: serialDemo2.table
      ph := Function.update serialDemo2.ph 0 .sInserted }

theorem serialDemo1_reach : SerialReach serialDemo1 :=
  SerialReach.step SerialReach.init (SerialStep.acquire 0 (serialInit 2) rfl rfl)

theorem serialDemo2_reach : SerialReach serialDemo2 :=
  SerialReach.step serialDemo1_reach (SerialStep.write 0 serialDemo1 rfl)

theorem serialDemo3_reach : SerialReach serialDemo3 :=
  SerialReach.step serialDemo2_reach (SerialStep.insert 0 serialDemo2 rfl)

/-- Concrete run of the oob system: caller 0 of 2 has allocated the first id. -/
def oobDemo1 : OobState 2 :=
  { oobInit 2 with
      allocCount := 1
      ph := Function.update (oobInit 2).ph 0 (.oAllocated (0 % 2 ^ 64)) }

theorem oobDemo1_reach : OobReach oobDemo1 :=
  OobReach.step OobReach.init (OobStep.alloc 0 (oobInit 2) rfl)

/-! ### Claim theorems -/

/-- C1: the claim that the completion handle is registered before control can
return to any task able to process the reply fails on the code. execute_
registers the handle only after write_all completes, and in the oob branch
after the write lock is dropped; the reader task needs only the pending-table
lock. The schedule allocate, write, reply-arrives, unlock, reader-process is
therefore admitted, and it drives process_response to the "unknown QAPI
response" decode error while the writer still sits before the registration
point (program counter wUnlocked, pending table still empty). -/
theorem C1_reply_processed_before_registration :
    runRace [.wAlloc, .wWrite, .envReply, .wDrop, .rProcess] =
      some { wpc := .wUnlocked 0, writeLockHeld := false, pending := [],
             replyOnWire := true,
             readerResult :=
               some (.err .invalidData "unknown QAPI response") } := rfl

/-- C2: process_response rejects a numeric id when supports_oob is false and a
missing numeric id when supports_oob is true as InvalidData decode errors;
otherwise it looks up the resolved id (the numeric id, or the reserved 0) in
the pending table — an absent entry is the "unknown QAPI response" decode
error, and a present live entry is removed from the table and its handle is
fulfilled with exactly the reply result. -/
theorem C2_process_response_contract (oob : Bool) (pending : PendingTable)
    (res : Response) :
    (∀ nid, res.id?.bind IdVal.asU64 = some nid → oob = false →
      process_response oob pending res =
        .err .invalidData "QAPI expected response without ID") ∧
    (res.id?.bind IdVal.asU64 = none → oob = true →
      process_response oob pending res =
        .err .invalidData "QAPI expected response with numeric ID") ∧
    (∀ rid, resolvedId oob res = some rid →
      (ptContains rid pending = false →
        process_response oob pending res =
          .err .invalidData "unknown QAPI response") ∧
      (∀ pending', ptRemove rid pending = (some Handle.alive, pending') →
        process_response oob pending res = .ok (rid, pending', res.result))) := by
  refine ⟨?_, ?_, ?_⟩
  · intro nid hres hoob
    subst hoob
    simp only [process_response, hres]
  · intro hres hoob
    subst hoob
    simp only [process_response, hres]
  · intro rid hrid
    cases h : res.id?.bind IdVal.asU64 with
    | none =>
      cases oob with
      | false =>
        simp only [resolvedId, h] at hrid
        have hr0 : rid = 0 := (Option.some.inj hrid).symm
        subst hr0
        constructor
        · intro hc
          have hrem := ptRemove_of_not_contains hc
          simp only [process_response, h, processResolved, hrem]
        · intro pending' hrem
          simp only [process_response, h, processResolved, hrem]
      | true =>
        simp only [resolvedId, h] at hrid
        exact Option.noConfusion hrid
    | some nid =>
      cases oob with
      | true =>
        simp only [resolvedId, h] at hrid
        have hr : rid = nid := (Option.some.inj hrid).symm
        subst hr
        constructor
        · intro hc
          have hrem := ptRemove_of_not_contains hc
          simp only [process_response, h, processResolved, hrem]
        · intro pending' hrem
          simp only [process_response, h, processResolved, hrem]
      | false =>
        simp only [resolvedId, h] at hrid
        exact Option.noConfusion hrid

theorem C2_process_response_contract_witness :
    process_response true [(5, Handle.alive)]
        { id? := some (.num 5), result := .ok 7 } = .ok (5, [], .ok 7) :=
  ((C2_process_response_contract true [(5, Handle.alive)]
      { id? := some (.num 5), result := .ok 7 }).2.2 5 rfl).2 [] rfl

/-- C3: on a non-oob connection the execute plan allocates no id, inserts under
the reserved key 0 and keeps the write guard across the whole
request/response cycle; and in every reachable state of the serialized system
the pending table holds at most one entry, every entry is keyed 0, and every
caller between lock acquisition and resolution is the write-lock owner. -/
theorem C3_non_oob_serialized {n : Nat} (s : SerialState n)
    (h : SerialReach s) :
    s.table.length ≤ 1 ∧
    (∀ e ∈ s.table, e.1 = 0) ∧
    (∀ i : Fin n, (s.ph i).busy = true → s.lockOwner = some i) ∧
    (∀ fid : Nat, (executeCall false fid).idAssigned = none ∧
      (executeCall false fid).insertKey = 0 ∧
      (executeCall false fid).dropsWriteLockBeforeReply = false) := by
  have inv := serialReach_inv h
  exact ⟨inv.atMostOne, fun e he => (inv.keysZero e he).1, inv.owner,
    fun _ => ⟨rfl, rfl, rfl⟩⟩

theorem C3_non_oob_serialized_witness :
    serialDemo3.table.length ≤ 1 ∧ serialDemo3.lockOwner = some 0 :=
  ⟨(C3_non_oob_serialized serialDemo3 serialDemo3_reach).1,
   (C3_non_oob_serialized serialDemo3 serialDemo3_reach).2.2.1 0 rfl⟩

/-- C4: the claim that fulfilling an abandoned handle is a harmless silent
no-op fails on the code: a reply resolving to an entry whose receiver was
dropped drives process_response into the map_err closure at line 106, which
runs the unimplemented macro, i.e. the demultiplexer panics. -/
theorem C4_abandoned_handle_panics :
    process_response false [(0, Handle.abandoned)]
      { id? := none, result := .ok 0 } = .panics "not implemented" := rfl

/-- C5: the claim that close forcibly ends the reader task and resolves every
outstanding handle with a disconnection error fails on the code: the body of
close (lines 343-346) is a single unimplemented macro, so close panics and
resolves nothing. The disconnection error itself exists only on the receiver
side of execute_ (lines 336-340), where a cancelled receiver yields the
UnexpectedEof "QAPI stream disconnected" error. -/
theorem C5_close_is_a_stub :
    close = .panics "not implemented" ∧
    awaitReceiver .cancelled =
      .err .unexpectedEof "QAPI stream disconnected" := ⟨rfl, rfl⟩

/-- C6 counterexample: spin does continue past a decode error. With a malformed
first line and a well-formed reply on the second line, spin records the decode
error as its first observation and still processes the second line, resolving
the pending entry (the final table is empty). The claim predicts the loop
terminates at the first line, leaving the entry in place. -/
theorem C6_spin_error_counterexample :
    spinRun [(0, Handle.alive)]
        [QgaLine.malformed, QgaLine.response { id? := none, result := .ok 3 }] =
      ([.err .invalidData "serde_json parse error", .ok ()], []) := rfl

/-- C6 amended: a decode error is fatal only to the message being processed —
process_message returns it and next_event_ propagates it, but spin logs and
ignores every error and continues with the remaining lines; only end of stream
ends the spin loop. -/
theorem C6_spin_continues_past_decode_errors (pending p' : PendingTable)
    (l : QgaLine) (rest : List QgaLine) (k : ErrKind) (m : String)
    (d : Option (Except QapiError Payload))
    (h : processLineQga false pending l = (.err k m, p', d)) :
    spinRun pending (l :: rest) =
      ((.err k m) :: (spinRun p' rest).1, (spinRun p' rest).2) ∧
    spinRun pending [] = ([], pending) := by
  constructor
  · simp only [spinRun, h]
  · rfl

theorem C6_spin_continues_witness :
    spinRun [] [QgaLine.malformed] =
      ([.err .invalidData "serde_json parse error"], []) :=
  (C6_spin_continues_past_decode_errors [] [] QgaLine.malformed []
    .invalidData "serde_json parse error" none rfl).1

/-- C7: the claim that a Notification observed while negotiating capabilities
yields a returned connection-setup failure fails on the code: the Event arm of
negotiate_caps (line 243) runs the unimplemented macro, so the branch panics
instead of returning a handshake error. End of stream does return the
UnexpectedEof error, and a Reply is accepted. -/
theorem C7_negotiate_event_panics :
    negotiateCapsEvents .eventMsg = .panics "unexpected event" ∧
    negotiateCapsEvents .eofMsg =
      .err .unexpectedEof "unexpected EOF when negotiating QAPI capabilities" ∧
    negotiateCapsEvents (.respMsg 0) = .ok () := ⟨rfl, rfl, rfl⟩

/-- C8: guest-agent synchronization with token T succeeds when the reply
payload equals T, fails with the InvalidData "QMP sync failed" error when the
payload differs, and fails with the UnexpectedEof error when end of stream
arrives before any reply. -/
theorem C8_guest_sync_outcomes (token p : Int) :
    guest_sync token (.replyW (.ok token)) = .ok () ∧
    (p ≠ token →
      guest_sync token (.replyW (.ok p)) =
        .err .invalidData "QMP sync failed") ∧
    guest_sync token .eofW =
      .err .unexpectedEof "unexpected EOF when syncing QMP connection" := by
  refine ⟨?_, ?_, rfl⟩
  · simp [guest_sync, process_response, processResolved, ptRemove,
      guestSyncSyncBranch, tryJoinSync, guestSyncEvents]
  · intro hne
    simp [guest_sync, process_response, processResolved, ptRemove,
      guestSyncSyncBranch, tryJoinSync, guestSyncEvents, hne]

theorem C8_guest_sync_outcomes_witness :
    guest_sync 1 (.replyW (.ok 2)) = .err .invalidData "QMP sync failed" :=
  (C8_guest_sync_outcomes 1 2).2.1 (by decide)

/-- C9: inserting under a colliding id panics with "QAPI duplicate command id"
— an unrecoverable condition distinct from a returned io error — and under both
id-allocation disciplines the colliding branch is unreachable: in every
reachable oob state (with an unwrapped counter) an allocated id is absent from
the table, and in every reachable serialized state the table is empty when a
caller is about to insert, so insertPending takes its success branch. -/
theorem C9_duplicate_insertion (id : Nat) (t : PendingTable) {n : Nat}
    (so : OobState n) (ss : SerialState n)
    (hdup : ptContains id t = true) (ho : OobReach so)
    (hbound : so.allocCount ≤ 2 ^ 64) (hs : SerialReach ss) :
    insertPending id t =
      .panics "QAPI duplicate command id, this should not happen" ∧
    (∀ i : Fin n, ∀ oid, so.ph i = .oAllocated oid →
      insertPending oid (pendingOfKeys so.keys) =
        .ok ((oid, Handle.alive) :: pendingOfKeys so.keys)) ∧
    (∀ i : Fin n, ss.ph i = .sWritten →
      insertPending 0 ss.table = .ok [(0, Handle.alive)]) := by
  have oinv := oobReach_inv ho
  have sinv := serialReach_inv hs
  refine ⟨?_, ?_, ?_⟩
  · simp [insertPending, hdup]
  · intro i oid hph
    have hfresh := oinv.allocFresh hbound i oid hph
    have hc := ptContains_pendingOfKeys hfresh
    simp [insertPending, hc]
  · intro i hph
    have htbl : ss.table = [] := by
      by_contra hne
      obtain ⟨j, hj⟩ := sinv.tblIns hne
      have h1 := sinv.owner i (by rw [hph]; rfl)
      have h2 := sinv.owner j (by rw [hj]; rfl)
      rw [h1] at h2
      have hij : i = j := Option.some.inj h2
      rw [← hij, hph] at hj
      exact SPhase.noConfusion hj
    rw [htbl]
    rfl

theorem C9_duplicate_insertion_witness :
    insertPending 0 [(0, Handle.alive)] =
      .panics "QAPI duplicate command id, this should not happen" ∧
    insertPending (0 % 2 ^ 64) (pendingOfKeys oobDemo1.keys) =
      .ok ((0 % 2 ^ 64, Handle.alive) :: pendingOfKeys oobDemo1.keys) ∧
    insertPending 0 serialDemo2.table = .ok [(0, Handle.alive)] := by
  have h := C9_duplicate_insertion 0 [(0, Handle.alive)] oobDemo1 serialDemo2
    rfl oobDemo1_reach (by decide) serialDemo2_reach
  exact ⟨h.1, h.2.1 0 (0 % 2 ^ 64) rfl, h.2.2 0 rfl⟩

/-- C10: on a connection with supports_oob false, execute_oob produces exactly
the plan of execute — the oob request is ignored, the command is serialized
without an id and with the oob flag hardcoded to false, and the write guard is
kept for the whole cycle; no error path distinguishes the two calls. -/
theorem C10_execute_oob_degrades_to_execute (fid : Nat) :
    executeOobCall false fid = executeCall false fid ∧
    (executeCall false fid).idAssigned = none ∧
    (executeCall false fid).encodedWithId = false ∧
    (executeCall false fid).encodedOobFlag = false ∧
    (executeCall false fid).dropsWriteLockBeforeReply = false :=
  ⟨rfl, rfl, rfl, rfl, rfl⟩

end QapiTokio
